import Mathlib

/-!
Verification development for the SilentLink session core.

The definitions below are a shallow embedding of the TypeScript sources:
the crypto utility module (deriveKey / encryptMessage / decryptMessage /
encryptBuffer / decryptBuffer / hashPassphrase), the Room component
(signaling state machine, file transfer engine, data channel message
handling) and the Setup / App entry components.  Byte buffers are
modelled as lists of natural numbers below 256, strings as Lean strings,
and the single Supabase signaling row as a record with an optional
receiver column.  The platform AES-GCM primitive (window.crypto.subtle)
is modelled abstractly by its keystream and tag components, which is
faithful to the GCM construction: the ciphertext is the plaintext xored
with a keystream that depends only on key and nonce, followed by a
16-byte authentication tag recomputed and compared on decryption.
-/

set_option maxHeartbeats 1000000

/-- Protocol constant from the PROTOCOL_CONFIG object: plaintext chunk size. -/
def CHUNK_SIZE : Nat := 64 * 1024

/-- Protocol constant from PROTOCOL_CONFIG: data channel buffered-amount ceiling. -/
def BUFFER_THRESHOLD : Nat := 1 * 1024 * 1024

/-- Protocol constant from PROTOCOL_CONFIG: session-expiry horizon in milliseconds. -/
def SESSION_EXPIRY : Nat := 8000

/-- Protocol constant from PROTOCOL_CONFIG: room-full reclamation horizon in milliseconds. -/
def ROOM_FULL_EXPIRY : Nat := 12000

/-- Protocol constant from PROTOCOL_CONFIG: maximum file size in bytes (100 MiB). -/
def MAX_FILE_SIZE : Nat := 100 * 1024 * 1024

/-- Model of the platform AES-GCM primitive behind window.crypto.subtle,
decomposed as the GCM construction does: a keystream indexed by nonce and
byte position, and a 16-byte authentication tag over nonce and ciphertext.
All outputs are bytes (below 256), as the Web Crypto API returns byte
arrays. -/
structure SubtleAesGcm where
  ks : List Nat → Nat → Nat
  tag : List Nat → List Nat → List Nat
  ks_lt : ∀ iv i, ks iv i < 256
  tag_lt : ∀ iv ct b, b ∈ tag iv ct → b < 256
  tag_len : ∀ iv ct, (tag iv ct).length = 16

/-- Xor a byte list against a keystream starting at position i (the CTR
core of GCM). -/
def xorKs (ks : Nat → Nat) : Nat → List Nat → List Nat
  | _, [] => []
  | i, b :: bs => (b ^^^ ks i) :: xorKs ks (i + 1) bs

/-- Model of an AES-GCM encryption call: ciphertext is the keystream xor
of the plaintext followed by the 16-byte tag, exactly the layout
window.crypto.subtle.encrypt produces. -/
def gcmEncrypt (P : SubtleAesGcm) (iv pt : List Nat) : List Nat :=
  xorKs (P.ks iv) 0 pt ++ P.tag iv (xorKs (P.ks iv) 0 pt)

/-- Model of an AES-GCM decryption call: split off the trailing 16-byte
tag, recompute it over the ciphertext, and xor-decrypt on a match;
window.crypto.subtle.decrypt throws on a mismatch, modelled as none. -/
def gcmDecrypt (P : SubtleAesGcm) (iv d : List Nat) : Option (List Nat) :=
  if d.length < 16 then none
  else
    let ct := d.take (d.length - 16)
    let tg := d.drop (d.length - 16)
    if tg = P.tag iv ct then some (xorKs (P.ks iv) 0 ct) else none

/-- Base64 alphabet used by btoa and atob. -/
def b64Alphabet : List Char :=
  "ABCDEFGHIJKLMNOPQRSTUVWXYZabcdefghijklmnopqrstuvwxyz0123456789+/".data

/-- Character of the base64 alphabet at a sextet value. -/
def b64Char (n : Nat) : Char := b64Alphabet.getD n '='

/-- Inverse lookup into the base64 alphabet. -/
def b64Index (c : Char) : Option Nat :=
  (List.range 64).findSome? fun n => if b64Char n = c then some n else none

/-- Model of btoa applied to a binary string of byte values: standard
base64 with '=' padding. -/
def btoa : List Nat → List Char
  | [] => []
  | [a] => [b64Char (a / 4), b64Char (a % 4 * 16), '=', '=']
  | [a, b] => [b64Char (a / 4), b64Char (a % 4 * 16 + b / 16), b64Char (b % 16 * 4), '=']
  | a :: b :: c :: rest =>
      b64Char (a / 4) :: b64Char (a % 4 * 16 + b / 16) ::
      b64Char (b % 16 * 4 + c / 64) :: b64Char (c % 64) :: btoa rest

/-- Model of atob: decode four base64 characters at a time into bytes,
honouring '=' padding; invalid input throws in the browser, modelled as
none. -/
def atob : List Char → Option (List Nat)
  | [] => some []
  | w :: x :: y :: z :: rest =>
      match b64Index w, b64Index x with
      | some nw, some nx =>
          if z = '=' then
            if rest = [] then
              if y = '=' then some [nw * 4 + nx / 16]
              else
                match b64Index y with
                | some ny => some [nw * 4 + nx / 16, nx % 16 * 16 + ny / 4]
                | none => none
            else none
          else
            match b64Index y, b64Index z with
            | some ny, some nz =>
                (atob rest).map fun t =>
                  (nw * 4 + nx / 16) :: (nx % 16 * 16 + ny / 4) :: (ny % 4 * 64 + nz) :: t
            | _, _ => none
      | _, _ => none
  | _ => none

/-- UTF-8 encoding of one unicode scalar value, as TextEncoder produces. -/
def utf8EncodeChar (n : Nat) : List Nat :=
  if n < 0x80 then [n]
  else if n < 0x800 then [0xC0 + n / 64, 0x80 + n % 64]
  else if n < 0x10000 then [0xE0 + n / 4096, 0x80 + n / 64 % 64, 0x80 + n % 64]
  else [0xF0 + n / 262144, 0x80 + n / 4096 % 64, 0x80 + n / 64 % 64, 0x80 + n % 64]

/-- Model of TextEncoder.encode: the UTF-8 bytes of a string. -/
def textEncode (s : String) : List Nat :=
  (s.data.map fun c => utf8EncodeChar c.toNat).flatten

/-- Whether a byte is a UTF-8 continuation byte. -/
def isCont (b : Nat) : Prop := 0x80 ≤ b ∧ b < 0xC0

instance (b : Nat) : Decidable (isCont b) := by
  unfold isCont; infer_instance

/-- UTF-8 decoding of a byte list into unicode scalar values, rejecting
overlong forms, surrogates and out-of-range values; a valid-input model
of TextDecoder.decode (which only differs on invalid input, where it
substitutes replacement characters). -/
def utf8Decode : List Nat → Option (List Char)
  | [] => some []
  | b :: l =>
      if b < 0x80 then (utf8Decode l).map fun cs => Char.ofNat b :: cs
      else
        match l with
        | [] => none
        | b1 :: l1 =>
            if b < 0xE0 then
              if 0xC2 ≤ b ∧ isCont b1 then
                (utf8Decode l1).map fun cs => Char.ofNat ((b - 0xC0) * 64 + (b1 - 0x80)) :: cs
              else none
            else
              match l1 with
              | [] => none
              | b2 :: l2 =>
                  if b < 0xF0 then
                    if isCont b1 ∧ isCont b2 ∧
                        0x800 ≤ (b - 0xE0) * 4096 + (b1 - 0x80) * 64 + (b2 - 0x80) ∧
                        ((b - 0xE0) * 4096 + (b1 - 0x80) * 64 + (b2 - 0x80) < 0xD800 ∨
                         0xE000 ≤ (b - 0xE0) * 4096 + (b1 - 0x80) * 64 + (b2 - 0x80)) then
                      (utf8Decode l2).map fun cs =>
                        Char.ofNat ((b - 0xE0) * 4096 + (b1 - 0x80) * 64 + (b2 - 0x80)) :: cs
                    else none
                  else
                    match l2 with
                    | [] => none
                    | b3 :: l3 =>
                        if b < 0xF8 ∧ isCont b1 ∧ isCont b2 ∧ isCont b3 ∧
                            0x10000 ≤ (b - 0xF0) * 262144 + (b1 - 0x80) * 4096 +
                              (b2 - 0x80) * 64 + (b3 - 0x80) ∧
                            (b - 0xF0) * 262144 + (b1 - 0x80) * 4096 +
                              (b2 - 0x80) * 64 + (b3 - 0x80) < 0x110000 then
                          (utf8Decode l3).map fun cs =>
                            Char.ofNat ((b - 0xF0) * 262144 + (b1 - 0x80) * 4096 +
                              (b2 - 0x80) * 64 + (b3 - 0x80)) :: cs
                        else none

/-- Model of TextDecoder.decode restricted to valid UTF-8 input. -/
def textDecode (l : List Nat) : Option String :=
  (utf8Decode l).map fun cs => String.mk cs

/-- Result of encryptMessage in crypto.ts: base64 ciphertext and base64 iv. -/
structure EncryptedText where
  data : List Char
  iv : List Char

/-- Embedding of encryptMessage: UTF-8 encode the text, AES-GCM encrypt it
under the supplied fresh 12-byte nonce, and base64 both ciphertext and
nonce via btoa. -/
def encryptMessage (P : SubtleAesGcm) (iv : List Nat) (text : String) : EncryptedText :=
  { data := btoa (gcmEncrypt P iv (textEncode text))
    iv := btoa iv }

/-- Embedding of decryptMessage: base64-decode ciphertext and iv via atob,
AES-GCM decrypt, and UTF-8 decode; any failure throws, modelled as none. -/
def decryptMessage (P : SubtleAesGcm) (data iv : List Char) : Option String :=
  match atob data, atob iv with
  | some encryptedBuffer, some ivBuffer =>
      (gcmDecrypt P ivBuffer encryptedBuffer).bind textDecode
  | _, _ => none

/-- Embedding of encryptBuffer: AES-GCM encrypt a binary buffer under the
supplied fresh 12-byte nonce, returning ciphertext and nonce. -/
def encryptBuffer (P : SubtleAesGcm) (iv buffer : List Nat) : List Nat × List Nat :=
  (gcmEncrypt P iv buffer, iv)

/-- Embedding of decryptBuffer: AES-GCM decrypt a binary buffer. -/
def decryptBuffer (P : SubtleAesGcm) (buffer iv : List Nat) : Option (List Nat) :=
  gcmDecrypt P iv buffer

/-- Split a buffer into CHUNK_SIZE plaintext chunks, as the sendNext loop
slices the file buffer; the fuel argument (any bound on the buffer
length) makes the recursion structural. -/
def chunkBytesAux : Nat → List Nat → List (List Nat)
  | 0, _ => []
  | _, [] => []
  | fuel + 1, l => l.take CHUNK_SIZE :: chunkBytesAux fuel (l.drop CHUNK_SIZE)

/-- The CHUNK_SIZE slices of a buffer, in order. -/
def chunkBytes (l : List Nat) : List (List Nat) :=
  chunkBytesAux l.length l

/-- One on-wire binary frame of the file transfer engine: the 12-byte
nonce concatenated with the ciphertext, as sendNext packs it. -/
def packChunk (P : SubtleAesGcm) (iv chunk : List Nat) : List Nat :=
  let ed := encryptBuffer P iv chunk
  ed.2 ++ ed.1

/-- The binary frames a completed upload emits: each CHUNK_SIZE slice of
the buffer encrypted under its own fresh nonce and framed nonce-first. -/
def sendFrames (P : SubtleAesGcm) (ivs : List (List Nat)) (buf : List Nat) : List (List Nat) :=
  List.zipWith (packChunk P) ivs (chunkBytes buf)

/-- Inbound file assembly state, mirroring ReceivingFileState. -/
structure RecvState where
  id : String
  name : String
  size : Nat
  mimeType : String
  chunks : List (List Nat)
  received : Nat

/-- The file-assembly related session state of the Room component: the
optional in-flight inbound assembly, completed blobs handed to the chat
log, and the number of decryptBuffer invocations made so far. -/
structure Sess where
  receiving : Option RecvState
  assembled : List (List Nat)
  decryptCalls : Nat

/-- Embedding of handleFileMetaReceive: allocate a fresh assembly state
for the declared file. -/
def handleFileMetaReceive (sess : Sess) (id name : String) (size : Nat) (mime : String) : Sess :=
  { sess with receiving := some ⟨id, name, size, mime, [], 0⟩ }

/-- Events handleFileChunkReceive surfaces: a progress update per chunk
and a completion when the declared size is reached. -/
inductive RecvEvent
  | progress (id : String)
  | completed (id : String)
  deriving DecidableEq

/-- Embedding of handleFileChunkReceive: with no assembly in progress the
frame is dropped before anything happens; otherwise the first 12 bytes
are split off as the nonce, the remainder is authenticated-decrypted, and
on success the chunk is appended and the counter advanced; reaching the
declared size emits the assembled blob; a decryption failure discards the
assembly. -/
def handleFileChunkReceive (P : SubtleAesGcm) (sess : Sess) (d : List Nat) : Sess × List RecvEvent :=
  match sess.receiving with
  | none => (sess, [])
  | some s =>
      let sess1 := { sess with decryptCalls := sess.decryptCalls + 1 }
      match decryptBuffer P (d.drop 12) (d.take 12) with
      | none => ({ sess1 with receiving := none }, [])
      | some dec =>
          let s2 : RecvState :=
            { s with chunks := s.chunks ++ [dec], received := s.received + dec.length }
          if s2.received ≥ s2.size then
            ({ sess1 with receiving := none, assembled := sess1.assembled ++ [s2.chunks.flatten] },
             [RecvEvent.progress s.id, RecvEvent.completed s.id])
          else
            ({ sess1 with receiving := some s2 }, [RecvEvent.progress s.id])

/-- Run the receiver over a sequence of binary frames in arrival order
(the data channel is ordered and reliable), as repeated onmessage
dispatches into handleFileChunkReceive. -/
def runFrames (P : SubtleAesGcm) (sess : Sess) (frames : List (List Nat)) : Sess :=
  frames.foldl (fun s f => (handleFileChunkReceive P s f).1) sess

/-- Data channel frames the file transfer engine emits, as seen on the
wire: the JSON file-meta frame followed by opaque binary chunk frames. -/
inductive DCFrame
  | meta (id name : String) (size : Nat) (mimeType : String)
  | binary (payload : List Nat)
  deriving DecidableEq

/-- Embedding of the frame-emitting behaviour of handleFileUpload: a file
larger than MAX_FILE_SIZE is rejected before anything is sent; otherwise
the file-meta frame goes out first, followed by the encrypted chunk
frames of a completed transfer. -/
def handleFileUpload (P : SubtleAesGcm) (ivs : List (List Nat)) (id name mime : String)
    (bytes : List Nat) : List DCFrame :=
  if bytes.length > MAX_FILE_SIZE then []
  else DCFrame.meta id name bytes.length mime :: (sendFrames P ivs bytes).map DCFrame.binary

/-- The single Supabase signaling row (rooms_signaling). -/
structure RoomRow where
  room_id : String
  passphrase_hash : String
  initiator_id : String
  receiver_id : Option String
  offer : Option String
  answer : Option String
  updated_at : Nat
  deriving DecidableEq

/-- Embedding of the conditional receiver claim issued by sendAnswer:
update receiver_id and answer on the row, predicated on receiver_id being
null, and report whether a row was matched (updData nonempty). -/
def claimReceiverUpdate (db : Option RoomRow) (peerId answerSDP : String) :
    Option RoomRow × Bool :=
  match db with
  | some row =>
      if row.receiver_id = none then
        (some { row with receiver_id := some peerId, answer := some answerSDP }, true)
      else (some row, false)
  | none => (none, false)

/-- Outcome of the sendAnswer procedure. -/
inductive SendAnswerResult
  | ready
  | roomFull
  deriving DecidableEq

/-- Embedding of sendAnswer (identical in the notification path and the
fetch path): attempt the conditional claim; on a match enter ready; on
zero rows matched re-read the row and treat a receiver_id already equal
to self as success, anything else as room-full. -/
def sendAnswer (db : Option RoomRow) (peerId answerSDP : String) :
    Option RoomRow × SendAnswerResult :=
  let r := claimReceiverUpdate db peerId answerSDP
  if r.2 then (r.1, SendAnswerResult.ready)
  else
    match r.1 with
    | some row =>
        if row.receiver_id = some peerId then (r.1, SendAnswerResult.ready)
        else (r.1, SendAnswerResult.roomFull)
    | none => (r.1, SendAnswerResult.roomFull)

/-- Signaling role of this peer. -/
inductive Role
  | noRole
  | initiator
  | receiver
  deriving DecidableEq

/-- Embedding of one heartbeat tick: while the role is not none, write the
role identifier column together with updated_at, with no predicate on the
current column value. -/
def heartbeatUpdate (db : Option RoomRow) (role : Role) (selfId : String) (now : Nat) :
    Option RoomRow :=
  match role, db with
  | Role.noRole, _ => db
  | _, none => none
  | Role.initiator, some row => some { row with initiator_id := selfId, updated_at := now }
  | Role.receiver, some row => some { row with receiver_id := some selfId, updated_at := now }

/-- Outcome of role election on a fully occupied row. -/
inductive FullRowOutcome
  | reclaim
  | roomFull
  deriving DecidableEq

/-- Embedding of the fully-occupied branch of joinAndSignal: an occupant
reclaims the row when it is stale past SESSION_EXPIRY, a stranger when it
is stale past ROOM_FULL_EXPIRY; otherwise room-full. -/
def fullRowDecision (row : RoomRow) (selfId : String) (now : Nat) : FullRowOutcome :=
  if row.initiator_id = selfId ∨ row.receiver_id = some selfId then
    if now - row.updated_at > SESSION_EXPIRY then FullRowOutcome.reclaim
    else FullRowOutcome.roomFull
  else if now - row.updated_at > ROOM_FULL_EXPIRY then FullRowOutcome.reclaim
  else FullRowOutcome.roomFull

/-- The retryCount values at which the joinAndSignal body actually runs,
when the initiator insert collides at each attempt given by the collide
predicate: the body returns immediately once retryCount exceeds 3, and a
collision schedules a rerun with retryCount + 1. -/
def attemptTrace (collide : Nat → Bool) (rc : Nat) : List Nat :=
  if rc > 3 then []
  else if collide rc then rc :: attemptTrace collide (rc + 1)
  else [rc]
termination_by 4 - rc
decreasing_by omega

/-- Connection status of the Room component. -/
inductive ConnStatus
  | idle
  | preparing
  | ready
  | connected
  | securityError
  | mediaError
  | roomFull
  deriving DecidableEq

/-- The signaling state of the peer connection as consulted by the answer
handler. -/
inductive PCSigState
  | haveLocalOffer
  | stable
  | otherState
  deriving DecidableEq

/-- The signaling flags and counters of the Room component that govern
remote description application. -/
structure SigState where
  role : Role
  status : ConnStatus
  processedOffer : Bool
  processedAnswer : Bool
  pc : Option PCSigState
  remoteOfferSets : Nat
  remoteAnswerSets : Nat
  deriving DecidableEq

/-- Embedding of the offer branch of the change-notification handler: a
real offer is consumed only by a receiver still idle or preparing whose
processed-offer flag is clear; consuming it sets the flag, moves to
preparing and applies the offer as the remote description exactly there. -/
def onOfferNotif (st : SigState) (offer : Option String) : SigState :=
  match offer with
  | none => st
  | some o =>
      if o = "CLAIMED" then st
      else if st.role = Role.receiver ∧
          (st.status = ConnStatus.preparing ∨ st.status = ConnStatus.idle) ∧
          st.processedOffer = false then
        { st with processedOffer := true, status := ConnStatus.preparing,
                  remoteOfferSets := st.remoteOfferSets + 1, pc := some PCSigState.otherState }
      else st

/-- Embedding of the answer branch of the change-notification handler: a
non-null answer is consumed only by the initiator with a clear
processed-answer flag, a live peer connection in have-local-offer or
stable state, and the row initiator equal to self; the remote description
is applied, and the flag set, only in the have-local-offer case. -/
def onAnswerNotif (st : SigState) (answer : Option String) (initiatorIsSelf : Bool) : SigState :=
  match answer with
  | none => st
  | some _ =>
      if st.role = Role.initiator ∧ st.processedAnswer = false then
        match st.pc with
        | some pcs =>
            if (pcs = PCSigState.haveLocalOffer ∨ pcs = PCSigState.stable) ∧
                initiatorIsSelf = true then
              if pcs = PCSigState.haveLocalOffer then
                { st with processedAnswer := true,
                          remoteAnswerSets := st.remoteAnswerSets + 1,
                          pc := some PCSigState.stable }
              else st
            else st
        | none => st
      else st

/-- Privacy filter modes, mirroring the PrivacyFilter enum. -/
inductive PrivacyFilter
  | NONE
  | BLUR
  | MOSAIC
  | BLACK
  deriving DecidableEq

/-- Session configuration, mirroring RoomConfig. -/
structure RoomConfig where
  roomId : String
  passphrase : String
  userName : String
  recordingProtection : Bool
  ephemeralSession : Bool
  defaultFilter : PrivacyFilter
  deriving DecidableEq

/-- ASCII uppercase mapping of one character, the ASCII fragment of the
JavaScript toUpperCase locale-independent mapping. -/
def upperAscii (c : Char) : Char :=
  if 97 ≤ c.toNat ∧ c.toNat ≤ 122 then Char.ofNat (c.toNat - 32) else c

/-- ASCII model of String.prototype.toUpperCase. -/
def toUpperModel (s : String) : String :=
  String.mk (s.data.map upperAscii)

/-- Whether a character is trimmed by String.prototype.trim (ASCII
whitespace fragment). -/
def isJsSpace (c : Char) : Prop := c = ' ' ∨ c = '\t' ∨ c = '\n' ∨ c = '\r'

instance (c : Char) : Decidable (isJsSpace c) := by
  unfold isJsSpace; infer_instance

/-- ASCII model of String.prototype.trim. -/
def jsTrim (s : String) : String :=
  String.mk (((s.data.dropWhile fun c => isJsSpace c).reverse.dropWhile
    fun c => isJsSpace c).reverse)

/-- Embedding of the Setup form handleSubmit: the stored room identifier
is the trimmed, uppercased form value. -/
def handleSubmit (roomName passphrase userName : String) (f : PrivacyFilter) : RoomConfig :=
  { roomId := toUpperModel (jsTrim roomName)
    passphrase := passphrase
    userName := userName
    recordingProtection := true
    ephemeralSession := true
    defaultFilter := f }

/-- Embedding of checkMagicLink in App: a fragment carrying both room and
pass enters the session with the fragment values as they are, a generated
guest display name and privacy mode none. -/
def checkMagicLink (roomId passphrase guestName : String) : Option RoomConfig :=
  if roomId ≠ "" ∧ passphrase ≠ "" then
    some { roomId := roomId
           passphrase := passphrase
           userName := guestName
           recordingProtection := true
           ephemeralSession := true
           defaultFilter := PrivacyFilter.NONE }
  else none

/-- A trivial instance of the platform AES-GCM model, used to instantiate
witnesses. -/
def P0 : SubtleAesGcm :=
  { ks := fun _ _ => 0
    tag := fun _ _ => List.replicate 16 0
    ks_lt := by intro _ _; show (0 : Nat) < 256; decide
    tag_lt := by
      intro _ _ b hb
      have := List.eq_of_mem_replicate hb
      omega
    tag_len := by intro _ _; simp }

theorem xorKs_length (ks : Nat → Nat) : ∀ i bs, (xorKs ks i bs).length = bs.length := by
  intro i bs
  induction bs generalizing i with
  | nil => rfl
  | cons b bs ih => simp [xorKs, ih]

theorem xorKs_xorKs (ks : Nat → Nat) : ∀ i bs, xorKs ks i (xorKs ks i bs) = bs := by
  intro i bs
  induction bs generalizing i with
  | nil => rfl
  | cons b bs ih => simp [xorKs, ih, Nat.xor_cancel_right]

theorem xorKs_mem_lt (ks : Nat → Nat) (hks : ∀ i, ks i < 256) :
    ∀ i bs, (∀ b ∈ bs, b < 256) → ∀ b ∈ xorKs ks i bs, b < 256 := by
  intro i bs
  induction bs generalizing i with
  | nil => intro _ b hb; cases hb
  | cons a bs ih =>
      intro h b hb
      rw [xorKs] at hb
      rcases List.mem_cons.mp hb with h1 | h2
      · subst h1
        have ha : a < 256 := h a (List.mem_cons_self a bs)
        have hk : ks i < 256 := hks i
        have := Nat.bitwise_lt (f := bne) (n := 8) (x := a) (y := ks i) ha hk
        simpa [Nat.xor] using this
      · exact ih (i + 1) (fun x hx => h x (List.mem_cons_of_mem a hx)) b h2

theorem gcmDecrypt_gcmEncrypt (P : SubtleAesGcm) (iv pt : List Nat) :
    gcmDecrypt P iv (gcmEncrypt P iv pt) = some pt := by
  have hct : (xorKs (P.ks iv) 0 pt).length = pt.length := xorKs_length _ 0 pt
  have htag := P.tag_len iv (xorKs (P.ks iv) 0 pt)
  rw [gcmEncrypt, gcmDecrypt]
  have hlen : (xorKs (P.ks iv) 0 pt ++ P.tag iv (xorKs (P.ks iv) 0 pt)).length
      = pt.length + 16 := by
    simp [hct, htag]
  rw [if_neg (by omega)]
  have hsub : (xorKs (P.ks iv) 0 pt ++ P.tag iv (xorKs (P.ks iv) 0 pt)).length - 16
      = (xorKs (P.ks iv) 0 pt).length := by
    omega
  simp only [hsub, List.take_left, List.drop_left, if_pos rfl, xorKs_xorKs, if_true]

theorem gcmEncrypt_mem_lt (P : SubtleAesGcm) (iv pt : List Nat)
    (h : ∀ b ∈ pt, b < 256) : ∀ b ∈ gcmEncrypt P iv pt, b < 256 := by
  intro b hb
  rw [gcmEncrypt] at hb
  rcases List.mem_append.mp hb with h1 | h2
  · exact xorKs_mem_lt (P.ks iv) (P.ks_lt iv) 0 pt h b h1
  · exact P.tag_lt iv _ b h2

theorem b64Index_b64Char : ∀ n, n < 64 → b64Index (b64Char n) = some n := by decide

theorem b64Char_ne_pad : ∀ n, n < 64 → b64Char n ≠ '=' := by decide

theorem atob_btoa : ∀ l : List Nat, (∀ b ∈ l, b < 256) → atob (btoa l) = some l := by
  intro l
  induction l using btoa.induct with
  | case1 => intro _; rfl
  | case2 a =>
      intro h
      have ha : a < 256 := h a (by simp)
      rw [btoa, atob]
      rw [b64Index_b64Char _ (by omega), b64Index_b64Char _ (by omega)]
      dsimp only
      rw [if_pos rfl, if_pos rfl, if_pos rfl]
      simp only [Option.some.injEq, List.cons.injEq, and_true]
      omega
  | case3 a b =>
      intro h
      have ha : a < 256 := h a (by simp)
      have hb : b < 256 := h b (by simp)
      rw [btoa, atob]
      rw [b64Index_b64Char _ (by omega), b64Index_b64Char _ (by omega)]
      dsimp only
      rw [if_pos rfl, if_pos rfl, if_neg (b64Char_ne_pad _ (by omega)),
        b64Index_b64Char _ (by omega)]
      dsimp only
      simp only [Option.some.injEq, List.cons.injEq, and_true]
      omega
  | case4 a b c rest ih =>
      intro h
      have ha : a < 256 := h a (by simp)
      have hb : b < 256 := h b (by simp)
      have hc : c < 256 := h c (by simp)
      have hrest : ∀ x ∈ rest, x < 256 := fun x hx => h x (by simp [hx])
      rw [btoa, atob]
      rw [b64Index_b64Char _ (by omega), b64Index_b64Char _ (by omega)]
      dsimp only
      rw [if_neg (b64Char_ne_pad _ (by omega))]
      rw [b64Index_b64Char _ (by omega), b64Index_b64Char _ (by omega)]
      dsimp only
      rw [ih hrest]
      simp only [Option.map_some', Option.some.injEq, List.cons.injEq, and_true]
      omega

theorem utf8Decode_one (n : Nat) (h : n < 0x80) (rest : List Nat) :
    utf8Decode (n :: rest) = (utf8Decode rest).map fun cs => Char.ofNat n :: cs := by
  rw [utf8Decode.eq_def]
  dsimp only
  rw [if_pos h]

theorem utf8Decode_two (n : Nat) (h1 : 0x80 ≤ n) (h2 : n < 0x800) (rest : List Nat) :
    utf8Decode ((0xC0 + n / 64) :: (0x80 + n % 64) :: rest)
      = (utf8Decode rest).map fun cs => Char.ofNat n :: cs := by
  rw [utf8Decode.eq_def]
  dsimp only
  rw [if_neg (by omega), if_pos (by omega), if_pos (by unfold isCont; omega)]
  have e : (0xC0 + n / 64 - 0xC0) * 64 + (0x80 + n % 64 - 0x80) = n := by omega
  rw [e]

theorem utf8Decode_three (n : Nat) (h1 : 0x800 ≤ n) (h2 : n < 0x10000)
    (hs : n < 0xD800 ∨ 0xE000 ≤ n) (rest : List Nat) :
    utf8Decode ((0xE0 + n / 4096) :: (0x80 + n / 64 % 64) :: (0x80 + n % 64) :: rest)
      = (utf8Decode rest).map fun cs => Char.ofNat n :: cs := by
  rw [utf8Decode.eq_def]
  dsimp only
  rw [if_neg (by omega), if_neg (by omega), if_pos (by omega)]
  have e : (0xE0 + n / 4096 - 0xE0) * 4096 + (0x80 + n / 64 % 64 - 0x80) * 64 +
      (0x80 + n % 64 - 0x80) = n := by omega
  rw [if_pos (by unfold isCont; omega), e]

theorem utf8Decode_four (n : Nat) (h1 : 0x10000 ≤ n) (h2 : n < 0x110000) (rest : List Nat) :
    utf8Decode ((0xF0 + n / 262144) :: (0x80 + n / 4096 % 64) :: (0x80 + n / 64 % 64) ::
        (0x80 + n % 64) :: rest)
      = (utf8Decode rest).map fun cs => Char.ofNat n :: cs := by
  rw [utf8Decode.eq_def]
  dsimp only
  rw [if_neg (by omega), if_neg (by omega), if_neg (by omega)]
  have e : (0xF0 + n / 262144 - 0xF0) * 262144 + (0x80 + n / 4096 % 64 - 0x80) * 4096 +
      (0x80 + n / 64 % 64 - 0x80) * 64 + (0x80 + n % 64 - 0x80) = n := by omega
  rw [if_pos (by unfold isCont; omega), e]

theorem utf8Decode_encodeChar (c : Char) (rest : List Nat) :
    utf8Decode (utf8EncodeChar c.toNat ++ rest) = (utf8Decode rest).map fun cs => c :: cs := by
  have hv : c.toNat < 0xD800 ∨ (0xE000 ≤ c.toNat ∧ c.toNat < 0x110000) := c.valid
  by_cases hc1 : c.toNat < 0x80
  · rw [utf8EncodeChar, if_pos hc1]
    simp only [List.cons_append, List.nil_append]
    rw [utf8Decode_one _ hc1, Char.ofNat_toNat]
  · by_cases hc2 : c.toNat < 0x800
    · rw [utf8EncodeChar, if_neg hc1, if_pos hc2]
      simp only [List.cons_append, List.nil_append]
      rw [utf8Decode_two _ (by omega) hc2, Char.ofNat_toNat]
    · by_cases hc3 : c.toNat < 0x10000
      · rw [utf8EncodeChar, if_neg hc1, if_neg hc2, if_pos hc3]
        simp only [List.cons_append, List.nil_append]
        rw [utf8Decode_three _ (by omega) hc3 (by omega), Char.ofNat_toNat]
      · rw [utf8EncodeChar, if_neg hc1, if_neg hc2, if_neg hc3]
        simp only [List.cons_append, List.nil_append]
        rw [utf8Decode_four _ (by omega) (by omega), Char.ofNat_toNat]

theorem utf8Decode_encodeList : ∀ cs : List Char,
    utf8Decode ((cs.map fun c => utf8EncodeChar c.toNat).flatten) = some cs := by
  intro cs
  induction cs with
  | nil => rfl
  | cons c cs ih =>
      simp only [List.map_cons, List.flatten_cons]
      rw [utf8Decode_encodeChar, ih]
      rfl

theorem textDecode_textEncode (s : String) : textDecode (textEncode s) = some s := by
  obtain ⟨d⟩ := s
  rw [textDecode, textEncode]
  rw [show (String.mk d).data = d from rfl, utf8Decode_encodeList d]
  rfl

theorem utf8EncodeChar_mem_lt (n : Nat) (h : n < 0x110000) : ∀ b ∈ utf8EncodeChar n, b < 256 := by
  intro b hb
  rw [utf8EncodeChar] at hb
  split_ifs at hb <;>
    simp only [List.mem_cons, List.mem_singleton, List.not_mem_nil, or_false] at hb <;>
    omega

theorem textEncode_mem_lt (s : String) : ∀ b ∈ textEncode s, b < 256 := by
  intro b hb
  rw [textEncode] at hb
  rw [List.mem_flatten] at hb
  obtain ⟨l, hl, hbl⟩ := hb
  rw [List.mem_map] at hl
  obtain ⟨c, _, rfl⟩ := hl
  have hv : c.toNat < 0xD800 ∨ (0xE000 ≤ c.toNat ∧ c.toNat < 0x110000) := c.valid
  exact utf8EncodeChar_mem_lt c.toNat (by omega) b hbl

theorem chunkBytesAux_flatten : ∀ fuel l, l.length ≤ fuel → (chunkBytesAux fuel l).flatten = l := by
  intro fuel
  induction fuel with
  | zero =>
      intro l hl
      have : l = [] := List.eq_nil_of_length_eq_zero (by omega)
      subst this
      rfl
  | succ f ih =>
      intro l hl
      cases l with
      | nil => rfl
      | cons b bs =>
          rw [show chunkBytesAux (f + 1) (b :: bs)
              = (b :: bs).take CHUNK_SIZE :: chunkBytesAux f ((b :: bs).drop CHUNK_SIZE) from rfl]
          rw [List.flatten_cons]
          have hd : ((b :: bs).drop CHUNK_SIZE).length ≤ f := by
            rw [List.length_drop, List.length_cons]
            rw [List.length_cons] at hl
            have hc : CHUNK_SIZE = 65536 := rfl
            omega
          rw [ih _ hd]
          exact List.take_append_drop _ _

theorem chunkBytes_flatten (l : List Nat) : (chunkBytes l).flatten = l :=
  chunkBytesAux_flatten l.length l (le_refl _)

theorem chunkBytesAux_ne_nil : ∀ fuel l, ∀ c ∈ chunkBytesAux fuel l, c ≠ [] := by
  intro fuel
  induction fuel with
  | zero => intro l c hc; simp [chunkBytesAux] at hc
  | succ f ih =>
      intro l c hc
      cases l with
      | nil => simp [chunkBytesAux] at hc
      | cons b bs =>
          rw [show chunkBytesAux (f + 1) (b :: bs)
              = (b :: bs).take CHUNK_SIZE :: chunkBytesAux f ((b :: bs).drop CHUNK_SIZE) from rfl]
            at hc
          rcases List.mem_cons.mp hc with h | h
          · subst h
            have hc : CHUNK_SIZE = 65536 := rfl
            intro hnil
            rw [List.take_eq_nil_iff] at hnil
            simp [hc] at hnil
          · exact ih _ c h

theorem chunkBytes_ne_nil (l : List Nat) : ∀ c ∈ chunkBytes l, c ≠ [] :=
  chunkBytesAux_ne_nil l.length l

theorem chunkBytes_ne_nil_of_ne_nil (l : List Nat) (h : l ≠ []) : chunkBytes l ≠ [] := by
  cases l with
  | nil => exact absurd rfl h
  | cons b bs =>
      rw [chunkBytes, List.length_cons]
      rw [show chunkBytesAux (bs.length + 1) (b :: bs)
          = (b :: bs).take CHUNK_SIZE :: chunkBytesAux bs.length ((b :: bs).drop CHUNK_SIZE)
          from rfl]
      simp

theorem flatten_len_pos (cs : List (List Nat)) (hne : cs ≠ []) (hnn : ∀ c ∈ cs, c ≠ []) :
    0 < cs.flatten.length := by
  cases cs with
  | nil => exact absurd rfl hne
  | cons c cs =>
      rw [List.flatten_cons, List.length_append]
      have : c ≠ [] := hnn c (by simp)
      have : 0 < c.length := List.length_pos.mpr this
      omega

theorem packChunk_split (P : SubtleAesGcm) (iv c : List Nat) (h : iv.length = 12) :
    (packChunk P iv c).take 12 = iv ∧ (packChunk P iv c).drop 12 = gcmEncrypt P iv c := by
  rw [packChunk]
  dsimp only [encryptBuffer]
  constructor
  · rw [← h, List.take_left]
  · rw [← h, List.drop_left]

theorem chunk_roundtrip (P : SubtleAesGcm) (iv c : List Nat) (h : iv.length = 12) :
    decryptBuffer P ((packChunk P iv c).drop 12) ((packChunk P iv c).take 12) = some c := by
  obtain ⟨h1, h2⟩ := packChunk_split P iv c h
  rw [h1, h2, decryptBuffer, gcmDecrypt_gcmEncrypt]

theorem runFrames_cons (P : SubtleAesGcm) (s : Sess) (f : List Nat) (fs : List (List Nat)) :
    runFrames P s (f :: fs) = runFrames P (handleFileChunkReceive P s f).1 fs := rfl

theorem runFrames_assembles (P : SubtleAesGcm) (idv namev mimev : String) :
    ∀ (cs ivs acc asm : List (List Nat)) (dc sz rcv : Nat),
      (∀ iv ∈ ivs, iv.length = 12) → ivs.length = cs.length →
      (∀ c ∈ cs, c ≠ []) → cs ≠ [] →
      sz = acc.flatten.length + cs.flatten.length → rcv = acc.flatten.length →
      runFrames P ⟨some ⟨idv, namev, sz, mimev, acc, rcv⟩, asm, dc⟩
          (List.zipWith (packChunk P) ivs cs)
        = ⟨none, asm ++ [(acc ++ cs).flatten], dc + cs.length⟩ := by
  intro cs
  induction cs with
  | nil => intro ivs acc asm dc sz rcv _ _ _ hne _ _; exact absurd rfl hne
  | cons c cs ih =>
      intro ivs acc asm dc sz rcv h12 hlen hnn _ hsz hrcv
      subst hsz hrcv
      cases ivs with
      | nil => simp at hlen
      | cons iv ivs =>
          simp only [List.zipWith_cons_cons]
          rw [runFrames_cons]
          have hdec := chunk_roundtrip P iv c (h12 iv (by simp))
          simp only [handleFileChunkReceive, hdec]
          by_cases hcs : cs = []
          · subst hcs
            rw [if_pos (by simp)]
            simp only [List.zipWith_nil_right]
            show (⟨none, asm ++ [(acc ++ [c]).flatten], dc + 1⟩ : Sess) = _
            simp
          · rw [if_neg (by
              simp only [ge_iff_le, not_le]
              have := flatten_len_pos cs hcs (fun x hx => hnn x (by simp [hx]))
              simp only [List.flatten_cons, List.length_append]
              omega)]
            have h12' : ∀ x ∈ ivs, x.length = 12 := fun x hx => h12 x (by simp [hx])
            have hlen' : ivs.length = cs.length := by
              simp only [List.length_cons] at hlen
              omega
            have hnn' : ∀ x ∈ cs, x ≠ [] := fun x hx => hnn x (by simp [hx])
            have step := ih ivs (acc ++ [c]) asm (dc + 1)
              ((acc ++ [c]).flatten.length + cs.flatten.length)
              ((acc ++ [c]).flatten.length) h12' hlen' hnn' hcs rfl rfl
            have e1 : (acc ++ [c]).flatten.length = acc.flatten.length + c.length := by
              simp
            have e2 : acc.flatten.length + (c :: cs).flatten.length
                = (acc ++ [c]).flatten.length + cs.flatten.length := by
              simp only [List.flatten_cons, List.length_append, e1]
              omega
            rw [show acc.flatten.length + c.length = (acc ++ [c]).flatten.length from by
              rw [e1]]
            rw [e2, step]
            simp only [Sess.mk.injEq, true_and]
            constructor
            · rw [List.append_assoc]
              rfl
            · simp only [List.length_cons]
              omega

theorem toNat_charOfNat (n : Nat) (h : n < 55296) : (Char.ofNat n).toNat = n := by
  have hv : n.isValidChar := Or.inl h
  simp [Char.ofNat, hv, Char.ofNatAux, Char.toNat, UInt32.toNat, BitVec.toNat_ofNatLt]

theorem upperAscii_idem (c : Char) : upperAscii (upperAscii c) = upperAscii c := by
  by_cases h : 97 ≤ c.toNat ∧ c.toNat ≤ 122
  · have ht : (Char.ofNat (c.toNat - 32)).toNat = c.toNat - 32 :=
      toNat_charOfNat _ (by omega)
    have e1 : upperAscii c = Char.ofNat (c.toNat - 32) := by rw [upperAscii, if_pos h]
    rw [e1, upperAscii, if_neg (by rw [ht]; omega)]
  · have e1 : upperAscii c = c := by rw [upperAscii, if_neg h]
    rw [e1]
    exact e1

theorem toUpperModel_idem (s : String) : toUpperModel (toUpperModel s) = toUpperModel s := by
  rw [toUpperModel, toUpperModel]
  rw [show (String.mk (s.data.map upperAscii)).data = s.data.map upperAscii from rfl]
  rw [List.map_map]
  congr 1
  apply List.map_congr_left
  intro a _
  exact upperAscii_idem a

theorem attemptTrace_len_le : ∀ k rc collide, 4 - rc ≤ k →
    (attemptTrace collide rc).length ≤ 4 - rc := by
  intro k
  induction k with
  | zero =>
      intro rc collide h
      rw [attemptTrace, if_pos (by omega)]
      simp
  | succ k ih =>
      intro rc collide h
      rw [attemptTrace]
      by_cases h4 : rc > 3
      · rw [if_pos h4]
        simp
      · rw [if_neg h4]
        by_cases hc : collide rc = true
        · rw [if_pos hc]
          have := ih (rc + 1) collide (by omega)
          simp only [List.length_cons]
          omega
        · rw [if_neg hc]
          simp only [List.length_cons, List.length_nil]
          omega

theorem attemptTrace_allCollide : attemptTrace (fun _ => true) 0 = [0, 1, 2, 3] := by
  rw [attemptTrace, if_neg (by omega), if_pos rfl]
  rw [attemptTrace, if_neg (by omega), if_pos rfl]
  rw [attemptTrace, if_neg (by omega), if_pos rfl]
  rw [attemptTrace, if_neg (by omega), if_pos rfl]
  rw [attemptTrace, if_pos (by omega)]

theorem iterate_succ_of_idem {α : Type} (f : α → α) (hf : ∀ x, f (f x) = f x) :
    ∀ n x, f^[n + 1] x = f x := by
  intro n
  induction n with
  | zero => intro x; rfl
  | succ k ih =>
      intro x
      rw [Function.iterate_succ_apply, ih (f x), hf]

theorem onOfferNotif_processed (st : SigState) (o : Option String)
    (h : st.processedOffer = true) : onOfferNotif st o = st := by
  cases o with
  | none => rfl
  | some s =>
      rw [onOfferNotif]
      by_cases h1 : s = "CLAIMED"
      · rw [if_pos h1]
      · rw [if_neg h1, if_neg (by simp [h])]

theorem onOfferNotif_idem (st : SigState) (o : Option String) :
    onOfferNotif (onOfferNotif st o) o = onOfferNotif st o := by
  cases o with
  | none => rfl
  | some s =>
      by_cases h1 : s = "CLAIMED"
      · simp only [onOfferNotif, if_pos h1]
      · by_cases h2 : st.role = Role.receiver ∧
            (st.status = ConnStatus.preparing ∨ st.status = ConnStatus.idle) ∧
            st.processedOffer = false
        · have e : onOfferNotif st (some s) =
              { st with processedOffer := true, status := ConnStatus.preparing,
                        remoteOfferSets := st.remoteOfferSets + 1,
                        pc := some PCSigState.otherState } := by
            rw [onOfferNotif, if_neg h1, if_pos h2]
          rw [e]
          exact onOfferNotif_processed _ _ rfl
        · have e : onOfferNotif st (some s) = st := by
            rw [onOfferNotif, if_neg h1, if_neg h2]
          rw [e]
          exact e

theorem onOfferNotif_sets_le (st : SigState) (o : Option String) :
    (onOfferNotif st o).remoteOfferSets ≤ st.remoteOfferSets + 1 := by
  cases o with
  | none => simp [onOfferNotif]
  | some s =>
      rw [onOfferNotif]
      split_ifs <;> simp

theorem onAnswerNotif_processed (st : SigState) (a : Option String) (b : Bool)
    (h : st.processedAnswer = true) : onAnswerNotif st a b = st := by
  cases a with
  | none => rfl
  | some s => rw [onAnswerNotif, if_neg (by simp [h])]

theorem onAnswerNotif_idem (st : SigState) (a : Option String) (b : Bool) :
    onAnswerNotif (onAnswerNotif st a b) a b = onAnswerNotif st a b := by
  cases a with
  | none => rfl
  | some s =>
      by_cases h1 : st.role = Role.initiator ∧ st.processedAnswer = false
      · cases hpc : st.pc with
        | none =>
            have e : onAnswerNotif st (some s) b = st := by
              rw [onAnswerNotif, if_pos h1, hpc]
            rw [e]
            exact e
        | some pcs =>
            by_cases h2 : (pcs = PCSigState.haveLocalOffer ∨ pcs = PCSigState.stable) ∧
                b = true
            · by_cases h3 : pcs = PCSigState.haveLocalOffer
              · have e : onAnswerNotif st (some s) b =
                    { st with processedAnswer := true,
                              remoteAnswerSets := st.remoteAnswerSets + 1,
                              pc := some PCSigState.stable } := by
                  rw [onAnswerNotif, if_pos h1, hpc]
                  dsimp only
                  rw [if_pos h2, if_pos h3]
                rw [e]
                exact onAnswerNotif_processed _ _ _ rfl
              · have e : onAnswerNotif st (some s) b = st := by
                  rw [onAnswerNotif, if_pos h1, hpc]
                  dsimp only
                  rw [if_pos h2, if_neg h3]
                rw [e]
                exact e
            · have e : onAnswerNotif st (some s) b = st := by
                rw [onAnswerNotif, if_pos h1, hpc]
                dsimp only
                rw [if_neg h2]
              rw [e]
              exact e
      · have e : onAnswerNotif st (some s) b = st := by
          rw [onAnswerNotif, if_neg h1]
        rw [e]
        exact e

theorem onAnswerNotif_sets_le (st : SigState) (a : Option String) (b : Bool) :
    (onAnswerNotif st a b).remoteAnswerSets ≤ st.remoteAnswerSets + 1 := by
  cases a with
  | none => simp [onAnswerNotif]
  | some s =>
      rw [onAnswerNotif]
      split_ifs with h1
      · cases hpc : st.pc with
        | none => simp
        | some pcs =>
            dsimp only
            split_ifs <;> simp
      · simp

/-- Claim C1: for every UTF-8 string and every session key, decryptMessage
applied to the (ciphertext-base64, iv-base64) pair produced by
encryptMessage under the same key returns the original string. -/
theorem C1_encrypt_decrypt_text (P : SubtleAesGcm) (iv : List Nat) (text : String)
    (hiv : ∀ b ∈ iv, b < 256) :
    decryptMessage P (encryptMessage P iv text).data (encryptMessage P iv text).iv
      = some text := by
  have h1 : atob (btoa (gcmEncrypt P iv (textEncode text)))
      = some (gcmEncrypt P iv (textEncode text)) :=
    atob_btoa _ (gcmEncrypt_mem_lt P iv _ (textEncode_mem_lt text))
  have h2 : atob (btoa iv) = some iv := atob_btoa _ hiv
  rw [encryptMessage]
  dsimp only
  rw [decryptMessage.eq_def, h1, h2]
  dsimp only
  rw [gcmDecrypt_gcmEncrypt]
  exact textDecode_textEncode text

/-- Witness for C1 at a concrete key model, nonce and string. -/
theorem C1_witness :
    (∀ b ∈ List.replicate 12 0, b < 256) ∧
    decryptMessage P0 (encryptMessage P0 (List.replicate 12 0) "hi").data
        (encryptMessage P0 (List.replicate 12 0) "hi").iv = some "hi" :=
  ⟨by decide, C1_encrypt_decrypt_text P0 (List.replicate 12 0) "hi" (by decide)⟩

/-- Claim C2: each plaintext chunk goes out as one binary frame equal to
the 12-byte nonce concatenated with the ciphertext; the receiver splits
the first 12 bytes off as the nonce and decrypts the remainder back to
the original chunk; consequently a transfer that completes reassembles
exactly the sent byte sequence. -/
theorem C2_file_roundtrip (P : SubtleAesGcm) (ivs : List (List Nat)) (buf : List Nat)
    (idv namev mimev : String)
    (h12 : ∀ iv ∈ ivs, iv.length = 12) (hlen : ivs.length = (chunkBytes buf).length)
    (hne : buf ≠ []) :
    (∀ iv c, iv.length = 12 →
      packChunk P iv c = iv ++ gcmEncrypt P iv c ∧
      decryptBuffer P ((packChunk P iv c).drop 12) ((packChunk P iv c).take 12) = some c) ∧
    runFrames P ⟨some ⟨idv, namev, buf.length, mimev, [], 0⟩, [], 0⟩ (sendFrames P ivs buf)
      = ⟨none, [buf], (chunkBytes buf).length⟩ := by
  constructor
  · intro iv c h
    exact ⟨rfl, chunk_roundtrip P iv c h⟩
  · rw [sendFrames]
    have h := runFrames_assembles P idv namev mimev (chunkBytes buf) ivs [] [] 0
      buf.length 0 h12 hlen (chunkBytes_ne_nil buf) (chunkBytes_ne_nil_of_ne_nil buf hne)
      (by rw [chunkBytes_flatten]; simp) rfl
    rw [h]
    simp [chunkBytes_flatten]

/-- Witness for C2 at a concrete key model, nonce list and buffer. -/
theorem C2_witness :
    ((∀ iv ∈ [List.replicate 12 0], iv.length = 12) ∧
      [List.replicate 12 0].length = (chunkBytes [1, 2, 3]).length ∧
      ([1, 2, 3] : List Nat) ≠ []) ∧
    runFrames P0 ⟨some ⟨"f", "n", 3, "m", [], 0⟩, [], 0⟩
        (sendFrames P0 [List.replicate 12 0] [1, 2, 3])
      = ⟨none, [[1, 2, 3]], (chunkBytes [1, 2, 3]).length⟩ :=
  ⟨⟨by decide, by decide, by decide⟩,
   (C2_file_roundtrip P0 [List.replicate 12 0] [1, 2, 3] "f" "n" "m"
     (by decide) (by decide) (by decide)).2⟩

/-- Claim C3: the receiver claim is a conditional update setting
receiver-id to self and answer to the local description, predicated on
receiver-id being null; a match enters ready; zero rows matched re-reads
the row and enters ready exactly when the receiver is already self,
room-full otherwise. -/
theorem C3_sendAnswer_spec (db : Option RoomRow) (p a : String) :
    (∀ row, db = some row → row.receiver_id = none →
      sendAnswer db p a
        = (some { row with receiver_id := some p, answer := some a },
           SendAnswerResult.ready)) ∧
    (∀ row, db = some row → row.receiver_id = some p →
      sendAnswer db p a = (some row, SendAnswerResult.ready)) ∧
    (∀ row q, db = some row → row.receiver_id = some q → q ≠ p →
      sendAnswer db p a = (some row, SendAnswerResult.roomFull)) ∧
    (db = none → sendAnswer db p a = (none, SendAnswerResult.roomFull)) := by
  refine ⟨?_, ?_, ?_, ?_⟩
  · intro row hdb hrec
    subst hdb
    simp [sendAnswer, claimReceiverUpdate, hrec]
  · intro row hdb hrec
    subst hdb
    simp [sendAnswer, claimReceiverUpdate, hrec]
  · intro row q hdb hrec hqp
    subst hdb
    simp [sendAnswer, claimReceiverUpdate, hrec, hqp]
  · intro hdb
    subst hdb
    simp [sendAnswer, claimReceiverUpdate]

/-- Witness for C3: a concrete unclaimed row is claimed and the machine
enters ready. -/
theorem C3_witness :
    sendAnswer (some ⟨"R", "h", "A", none, some "o", none, 0⟩) "B" "ANS"
      = (some ⟨"R", "h", "A", some "B", some "o", some "ANS", 0⟩, SendAnswerResult.ready) :=
  (C3_sendAnswer_spec (some ⟨"R", "h", "A", none, some "o", none, 0⟩) "B" "ANS").1
    ⟨"R", "h", "A", none, some "o", none, 0⟩ rfl rfl

/-- Counterexample to claim C4: the heartbeat rewrites the receiver column
of an already fully claimed row, with no null predicate and possibly to a
different non-null value, so the column is not written at most once nor
only through the conditional update. -/
theorem C4_counterexample :
    (heartbeatUpdate (some ⟨"R", "h", "A", some "B", some "o", some "a", 0⟩)
        Role.receiver "C" 5000).map RoomRow.receiver_id = some (some "C") ∧
    (⟨"R", "h", "A", some "B", some "o", some "a", 0⟩ : RoomRow).receiver_id = some "B" ∧
    (some "C" : Option String) ≠ some "B" :=
  ⟨rfl, rfl, by decide⟩

/-- Claim C4 (amended): the conditional receiver claim itself never
overwrites a non-null receiver column, but the 5-second heartbeat of a
peer in the receiver role additionally rewrites the receiver column
unconditionally, so the column can be written more than once during the
lifetime of the row. -/
theorem C4_amended (row : RoomRow) (p a selfId : String) (now : Nat) :
    (row.receiver_id ≠ none → claimReceiverUpdate (some row) p a = (some row, false)) ∧
    heartbeatUpdate (some row) Role.receiver selfId now
      = some { row with receiver_id := some selfId, updated_at := now } := by
  constructor
  · intro h
    rw [claimReceiverUpdate, if_neg h]
  · rfl

/-- Witness for C4 at a concrete claimed row. -/
theorem C4_witness :
    (⟨"R", "h", "A", some "B", some "o", some "a", 0⟩ : RoomRow).receiver_id ≠ none ∧
    claimReceiverUpdate (some ⟨"R", "h", "A", some "B", some "o", some "a", 0⟩) "C" "x"
      = (some ⟨"R", "h", "A", some "B", some "o", some "a", 0⟩, false) :=
  ⟨by decide, (C4_amended ⟨"R", "h", "A", some "B", some "o", some "a", 0⟩ "C" "x" "S" 0).1
    (by decide)⟩

/-- Claim C5: duplicate deliveries of the same offer or answer
notification apply the remote description exactly once: repeating either
handler collapses to a single application, one handler call raises the
respective application counter by at most one, and once the single-shot
flag is set the handler is the identity. -/
theorem C5_exactly_once (st : SigState) (o a : Option String) (b : Bool) (n : Nat) :
    (fun s => onOfferNotif s o)^[n + 1] st = onOfferNotif st o ∧
    (fun s => onAnswerNotif s a b)^[n + 1] st = onAnswerNotif st a b ∧
    (onOfferNotif st o).remoteOfferSets ≤ st.remoteOfferSets + 1 ∧
    (onAnswerNotif st a b).remoteAnswerSets ≤ st.remoteAnswerSets + 1 ∧
    (st.processedOffer = true → onOfferNotif st o = st) ∧
    (st.processedAnswer = true → onAnswerNotif st a b = st) :=
  ⟨iterate_succ_of_idem _ (fun x => onOfferNotif_idem x o) n st,
   iterate_succ_of_idem _ (fun x => onAnswerNotif_idem x a b) n st,
   onOfferNotif_sets_le st o, onAnswerNotif_sets_le st a b,
   onOfferNotif_processed st o, onAnswerNotif_processed st a b⟩

/-- Witness for C5: with the processed-offer flag already set, a further
offer notification leaves the state unchanged. -/
theorem C5_witness :
    (⟨Role.receiver, ConnStatus.preparing, true, true, none, 1, 1⟩ : SigState).processedOffer
      = true ∧
    onOfferNotif ⟨Role.receiver, ConnStatus.preparing, true, true, none, 1, 1⟩ (some "OFF")
      = ⟨Role.receiver, ConnStatus.preparing, true, true, none, 1, 1⟩ :=
  ⟨rfl, (C5_exactly_once ⟨Role.receiver, ConnStatus.preparing, true, true, none, 1, 1⟩
    (some "OFF") none false 0).2.2.2.2.1 rfl⟩

/-- Counterexample to claim C6: a fully occupied row whose updated-at is
exactly 8000 ms stale, with self an occupant, is not reclaimed; the
machine enters room-full instead, since the code tests strict
staleness. -/
theorem C6_counterexample :
    fullRowDecision ⟨"R", "h", "A", some "B", some "o", some "a", 0⟩ "A" 8000
      = FullRowOutcome.roomFull ∧
    fullRowDecision ⟨"R", "h", "A", some "B", some "o", some "a", 0⟩ "A" 8000
      ≠ FullRowOutcome.reclaim := by
  refine ⟨by decide, by decide⟩

/-- Claim C6 (amended): for an occupant of a fully occupied row,
reclamation happens exactly when the row is strictly more than
SESSION_EXPIRY (8000 ms) stale; at exactly 8 s, and in particular at
7.9 s, the row is kept and the machine enters room-full. -/
theorem C6_amended (row : RoomRow) (selfId : String) (now : Nat)
    (hocc : row.initiator_id = selfId ∨ row.receiver_id = some selfId) :
    (fullRowDecision row selfId now = FullRowOutcome.reclaim ↔
      now - row.updated_at > SESSION_EXPIRY) ∧
    (now - row.updated_at ≤ SESSION_EXPIRY →
      fullRowDecision row selfId now = FullRowOutcome.roomFull) := by
  rw [fullRowDecision, if_pos hocc]
  by_cases hstale : now - row.updated_at > SESSION_EXPIRY
  · rw [if_pos hstale]
    exact ⟨⟨fun _ => hstale, fun _ => rfl⟩, fun hle => absurd hstale (by omega)⟩
  · rw [if_neg hstale]
    exact ⟨⟨fun h => FullRowOutcome.noConfusion h, fun h => absurd h hstale⟩, fun _ => rfl⟩

/-- Witness for C6: an occupant row stale by 8001 ms is reclaimed. -/
theorem C6_witness :
    ((⟨"R", "h", "A", some "B", some "o", some "a", 0⟩ : RoomRow).initiator_id = "A" ∨
      (⟨"R", "h", "A", some "B", some "o", some "a", 0⟩ : RoomRow).receiver_id = some "A") ∧
    fullRowDecision ⟨"R", "h", "A", some "B", some "o", some "a", 0⟩ "A" 8001
      = FullRowOutcome.reclaim :=
  ⟨Or.inl rfl,
   ((C6_amended ⟨"R", "h", "A", some "B", some "o", some "a", 0⟩ "A" 8001 (Or.inl rfl)).1).mpr
     (by decide)⟩

/-- Counterexample to claim C7: with every insert colliding, the election
procedure body runs four times, at retryCount 0 through 3, so it is not
run at most 3 total times. -/
theorem C7_counterexample :
    (attemptTrace (fun _ => true) 0).length = 4 ∧
    ¬ (attemptTrace (fun _ => true) 0).length ≤ 3 := by
  rw [attemptTrace_allCollide]
  exact ⟨rfl, by decide⟩

/-- Claim C7 (amended): an insert collision restarts the procedure with
retryCount + 1, and the guard retryCount greater than 3 limits the body
to at most 4 total runs; with every insert colliding the body runs
exactly at retryCount 0, 1, 2 and 3 before giving up. -/
theorem C7_amended :
    (∀ collide rc, (attemptTrace collide rc).length ≤ 4) ∧
    attemptTrace (fun _ => true) 0 = [0, 1, 2, 3] := by
  constructor
  · intro collide rc
    have := attemptTrace_len_le (4 - rc) rc collide (le_refl _)
    omega
  · exact attemptTrace_allCollide

/-- Claim C8: a file of up to exactly MAX_FILE_SIZE (100 MiB) is accepted
and the file-meta frame leads the emitted frames, while any strictly
larger file is rejected locally with no frame emitted at all. -/
theorem C8_max_file_size (P : SubtleAesGcm) (ivs : List (List Nat)) (idv namev mimev : String)
    (bytes : List Nat) :
    (bytes.length ≤ MAX_FILE_SIZE →
      handleFileUpload P ivs idv namev mimev bytes
        = DCFrame.meta idv namev bytes.length mimev ::
            (sendFrames P ivs bytes).map DCFrame.binary) ∧
    (bytes.length > MAX_FILE_SIZE → handleFileUpload P ivs idv namev mimev bytes = []) := by
  constructor
  · intro h
    rw [handleFileUpload, if_neg (by omega)]
  · intro h
    rw [handleFileUpload, if_pos h]

/-- Witness for C8 at exactly 100 MiB and at 100 MiB plus one byte. -/
theorem C8_witness :
    ((List.replicate MAX_FILE_SIZE 0).length ≤ MAX_FILE_SIZE ∧
      handleFileUpload P0 [] "f" "n" "m" (List.replicate MAX_FILE_SIZE 0)
        = DCFrame.meta "f" "n" (List.replicate MAX_FILE_SIZE 0).length "m" ::
            (sendFrames P0 [] (List.replicate MAX_FILE_SIZE 0)).map DCFrame.binary) ∧
    ((List.replicate (MAX_FILE_SIZE + 1) 0).length > MAX_FILE_SIZE ∧
      handleFileUpload P0 [] "f" "n" "m" (List.replicate (MAX_FILE_SIZE + 1) 0) = []) :=
  ⟨⟨by simp, (C8_max_file_size P0 [] "f" "n" "m" (List.replicate MAX_FILE_SIZE 0)).1 (by simp)⟩,
   ⟨by simp, (C8_max_file_size P0 [] "f" "n" "m" (List.replicate (MAX_FILE_SIZE + 1) 0)).2
     (by simp)⟩⟩

/-- Counterexample to claim C9: entering through a magic link with room
identifier abc stores it verbatim in the session configuration, and abc
is not uppercase-normalized. -/
theorem C9_counterexample :
    (checkMagicLink "abc" "p" "g").map RoomConfig.roomId = some "abc" ∧
    toUpperModel "abc" ≠ "abc" := by
  refine ⟨by decide, by decide⟩

/-- Claim C9 (amended): the setup form path stores a case-normalized
(uppercase-idempotent) room identifier, but the magic-link path stores
the room identifier from the URL fragment verbatim, with no case
normalization. -/
theorem C9_amended (roomName passphrase userName r pp g : String) (f : PrivacyFilter) :
    toUpperModel (handleSubmit roomName passphrase userName f).roomId
      = (handleSubmit roomName passphrase userName f).roomId ∧
    (∀ c, checkMagicLink r pp g = some c → c.roomId = r) := by
  constructor
  · exact toUpperModel_idem (jsTrim roomName)
  · intro c hc
    rw [checkMagicLink] at hc
    by_cases h : r ≠ "" ∧ pp ≠ ""
    · rw [if_pos h] at hc
      cases hc
      rfl
    · rw [if_neg h] at hc
      cases hc

/-- Witness for C9: the magic-link configuration for room abc carries
roomId abc unchanged. -/
theorem C9_witness :
    checkMagicLink "abc" "p" "g"
      = some ⟨"abc", "p", "g", true, true, PrivacyFilter.NONE⟩ ∧
    (⟨"abc", "p", "g", true, true, PrivacyFilter.NONE⟩ : RoomConfig).roomId = "abc" :=
  ⟨by decide, (C9_amended "x" "y" "z" "abc" "p" "g" PrivacyFilter.NONE).2
    ⟨"abc", "p", "g", true, true, PrivacyFilter.NONE⟩ (by decide)⟩

/-- Claim C10: a binary frame arriving while no inbound assembly is in
progress is silently discarded: the handler returns before decrypting
(the decryptBuffer call counter is unchanged), emits no event and leaves
the session state untouched. -/
theorem C10_orphan_chunk (P : SubtleAesGcm) (sess : Sess) (d : List Nat)
    (h : sess.receiving = none) :
    handleFileChunkReceive P sess d = (sess, []) := by
  rw [handleFileChunkReceive.eq_def, h]

/-- Witness for C10 at a concrete idle session and frame. -/
theorem C10_witness :
    (⟨none, [], 0⟩ : Sess).receiving = none ∧
    handleFileChunkReceive P0 ⟨none, [], 0⟩ [1, 2, 3] = (⟨none, [], 0⟩, []) :=
  ⟨rfl, C10_orphan_chunk P0 ⟨none, [], 0⟩ [1, 2, 3] rfl⟩
